import Mathlib

/-!
# Verification of the RadarLPDP batch-acquisition pipeline

Shallow embedding of the streaming acquisition-to-batch pipeline of
`src/cadgetdata.c` (channel extraction, half-buffer drain loop, event
batching, batch flush with its textual header, live-snapshot publication)
together with the `src/CodeTriggerExtBaru/ori.c` / `fft_zero.c` variants
(whole-cycle skip on live-file failure, spectral zero-centering stage).

Samples are modelled as natural numbers (the code only copies U16 values,
it never computes with them), byte streams as `List ℕ`, and file-system
effects as explicit values returned by the modelled operations.
-/

/-! ## Configuration constants (src/cadgetdata.c lines 13-26) -/

def TOTAL_HW_CHANNELS : ℕ := 4

def SELECTED_IDX : List ℕ := [1, 3]

def SELECTED_COUNT : ℕ := SELECTED_IDX.length

def BUFFER_SAMPLES : ℕ := 8192

def MAX_EVENT_BATCH : ℕ := 1000

/-! ## Channel Selector

`extract_selected_channels` (src/cadgetdata.c lines 120-131) copies, for
each scan index `i` in order and each selection entry `k` in declared
order, `src[i*hw + sel[k]]` to the next output slot.  The C function fixes
`hw = TOTAL_HW_CHANNELS`, `scans = BUFFER_SAMPLES`, `sel = SELECTED_IDX`;
the model takes them as parameters (the code's instantiation is
`extract_full` below). The source half-buffer is modelled as an index
function, as the C code indexes it unconditionally. -/

def extract_selected_channels (hw scans : ℕ) (sel : List ℕ) (src : ℕ → ℕ) : List ℕ :=
  (List.range scans).flatMap fun i => sel.map fun ch => src (i * hw + ch)

/-- The Channel Selector exactly as instantiated by the code. -/
def extract_full (src : ℕ → ℕ) : List ℕ :=
  extract_selected_channels TOTAL_HW_CHANNELS BUFFER_SAMPLES SELECTED_IDX src

/-! ## Half-buffer drain loop (src/cadgetdata.c lines 229-263)

Each ready half-buffer is extracted and appended to the current event's
growing buffer (`realloc` + `memcpy`).  `ok i` tells whether the `realloc`
for the `i`-th chunk succeeds; on the first failure the partial buffer is
freed and the event is discarded (`none`).  The half-buffers are the
sequence the driver delivers, in arrival order. -/

def drain_acq : List (ℕ → ℕ) → (ℕ → Bool) → ℕ → List ℕ → Option (List ℕ)
  | [], _, _, acc => some acc
  | b :: rest, ok, i, acc =>
    if ok i then drain_acq rest ok (i + 1) (acc ++ extract_full b) else none

/-- Bytes written to the live temp file by the drain loop: each chunk is
`fwrite`-n right after its successful `realloc`+`memcpy`; after the first
allocation failure the loop stops, so nothing further is written. -/
def drain_live : List (ℕ → ℕ) → (ℕ → Bool) → ℕ → List ℕ
  | [], _, _ => []
  | b :: rest, ok, i =>
    if ok i then extract_full b ++ drain_live rest ok (i + 1) else []

/-! ## Decimal formatting (the `%d` / `%0Nd` conversions used by `snprintf`) -/

/-- Decimal digit characters of `n`, most significant first (`%d` for a
non-negative value). -/
def natDigits (n : ℕ) : List Char :=
  if n < 10 then [Char.ofNat (48 + n)]
  else natDigits (n / 10) ++ [Char.ofNat (48 + n % 10)]

/-- `%0wd` for a non-negative value: zero-pad on the left to minimum
width `w` (wider values print in full). -/
def padNum (w n : ℕ) : List Char :=
  List.replicate (w - (natDigits n).length) '0' ++ natDigits n

/-! ## Batch flush (src/cadgetdata.c lines 49-93)

The wall-clock time passed to the header is a parameter; its fields are
the already-adjusted values printed by the code (`tm_year+1900`,
`tm_mon+1`, ...). -/

structure Timestamp where
  year : ℕ
  mon : ℕ
  mday : ℕ
  hour : ℕ
  min : ℕ
  sec : ℕ

/-- The `TEST_DATE:` line of the header (format
`%04d-%02d-%02d %02d:%02d:%02d`, src/cadgetdata.c line 70). -/
def date_line (t : Timestamp) : List Char :=
  "TEST_DATE:".toList ++ padNum 4 t.year ++ ['-'] ++ padNum 2 t.mon ++ ['-'] ++
    padNum 2 t.mday ++ [' '] ++ padNum 2 t.hour ++ [':'] ++ padNum 2 t.min ++
    [':'] ++ padNum 2 t.sec

/-- The key the count line of the header starts with. -/
def countKey : List Char := "BATCH_EVENT_COUNT:".toList

/-- The flush header text (src/cadgetdata.c lines 68-79): six
newline-terminated `key:value` lines followed by one blank line.  The
512-byte `snprintf` buffer is never exhausted for any reachable
timestamp/count, so no truncation is modelled. -/
def header_chars (t : Timestamp) (count : ℕ) : List Char :=
  date_line t ++ '\n' ::
    ("CODE_VERSION:Code trigger V.3".toList ++ '\n' ::
      ("AUTHOR:Raihan Muhammad".toList ++ '\n' ::
        (countKey ++ natDigits count ++ '\n' ::
          ("SAVED_CHANNELS:CH1,CH3".toList ++ '\n' ::
            ("INTERLEAVE_ORDER:CH1,CH3".toList ++ '\n' :: ['\n'])))))

/-- `save_batch_to_file` (src/cadgetdata.c lines 49-93).  The batch is the
list of buffered events (`g_data_buffer[0..g_buffered_count)`), each an
owned byte payload.  `fopen_ok` is whether `fopen` of the log file
succeeds.  Returns the new batch, the bytes of the file written (if any),
and whether the `KRITIS` diagnostic was printed.  On success the header is
written, then each event's payload in insertion order; every payload is
freed (dropped from the model) and the count reset to zero.  On `fopen`
failure the function returns with the batch untouched. -/
def save_batch_to_file (fopen_ok : Bool) (t : Timestamp) (batch : List (List ℕ)) :
    List (List ℕ) × Option (List ℕ) × Bool :=
  if batch.length = 0 then (batch, none, false)
  else if fopen_ok then
    ([], some ((header_chars t batch.length).map Char.toNat ++ batch.flatten), false)
  else (batch, none, true)

/-! ## Per-event batch append (src/cadgetdata.c lines 277-289)

After the drain loop, if the event buffer is non-null and non-empty it is
stored at `g_data_buffer[g_buffered_count]` and the count incremented;
when the count reaches `MAX_EVENT_BATCH` the flush runs synchronously.
`acq` is the drain result (`none`: allocation failure freed the buffer;
`some []`: no half-buffer arrived, buffer still null).  Returns the new
batch, the flushed file (if any), and the array index written (if any) —
the value of `g_buffered_count` at the moment of the
`g_data_buffer[g_buffered_count]` write. -/
def event_append (fopen_ok : Bool) (t : Timestamp) (batch : List (List ℕ))
    (acq : Option (List ℕ)) : List (List ℕ) × Option (List ℕ) × Option ℕ :=
  match acq with
  | none => (batch, none, none)
  | some e =>
    if e = [] then (batch, none, none)
    else
      let idx := batch.length
      let batch' := batch ++ [e]
      if MAX_EVENT_BATCH ≤ batch'.length then
        let r := save_batch_to_file fopen_ok t batch'
        (r.1, r.2.1, some idx)
      else (batch', none, some idx)

/-- Folding `event_append` over a sequence of completed-event outcomes
(the batch-level view of successive iterations of the outer `while
(!exit_now)` loop). -/
def run_events (fopen_ok : Bool) (t : Timestamp) (batch : List (List ℕ)) :
    List (Option (List ℕ)) → List (List ℕ)
  | [] => batch
  | a :: rest => run_events fopen_ok t (event_append fopen_ok t batch a).1 rest

/-- The batch sizes held after each completed event (the values of
`g_buffered_count` observed between trigger cycles). -/
def run_length_trace (fopen_ok : Bool) (t : Timestamp) (batch : List (List ℕ)) :
    List (Option (List ℕ)) → List ℕ
  | [] => []
  | a :: rest =>
    (event_append fopen_ok t batch a).1.length ::
      run_length_trace fopen_ok t (event_append fopen_ok t batch a).1 rest

/-- The array index used by each `g_data_buffer[g_buffered_count]` write
(`none` when the event was discarded and nothing was written). -/
def run_write_trace (fopen_ok : Bool) (t : Timestamp) (batch : List (List ℕ)) :
    List (Option (List ℕ)) → List (Option ℕ)
  | [] => []
  | a :: rest =>
    (event_append fopen_ok t batch a).2.2 ::
      run_write_trace fopen_ok t (event_append fopen_ok t batch a).1 rest

/-! ## One whole trigger cycle of src/cadgetdata.c (lines 201-289)

`live_ok` is whether `fopen` of the live temp file succeeds (lines
205-209): on failure the code keeps going — the drain loop still runs and
the event is still batched; only the guarded `fwrite`s and the final
`fclose`+`MoveFileExA` are skipped.  Returns the new batch, the live
snapshot published (if any), the flushed log file (if any), and the
array index written (if any). -/
def trigger_cycle (live_ok fopen_ok : Bool) (t : Timestamp) (batch : List (List ℕ))
    (bs : List (ℕ → ℕ)) (ok : ℕ → Bool) :
    List (List ℕ) × Option (List ℕ) × Option (List ℕ) × Option ℕ :=
  let acq := drain_acq bs ok 0 []
  let live := if live_ok then some (drain_live bs ok 0) else none
  let r := event_append fopen_ok t batch acq
  (r.1, live, r.2.1, r.2.2)

/-- One whole trigger cycle of `src/CodeTriggerExtBaru/ori.c` (lines
162-212; `fft_zero.c` lines 216-276 has the same shape at this level).
This variant scans 2 channels and batches the raw half-buffers without
channel extraction (`chunk_size = sizeof(U16)*BUFFER_SAMPLES*CHANNEL_COUNT`),
and on live temp-file `fopen` failure it executes `continue` (ori.c lines
165-168): the whole trigger cycle is skipped — no drain, no accumulation,
no batch append. -/
def ori_chunk (b : ℕ → ℕ) : List ℕ :=
  (List.range (BUFFER_SAMPLES * 2)).map b

def ori_drain : List (ℕ → ℕ) → (ℕ → Bool) → ℕ → List ℕ → Option (List ℕ)
  | [], _, _, acc => some acc
  | b :: rest, ok, i, acc =>
    if ok i then ori_drain rest ok (i + 1) (acc ++ ori_chunk b) else none

/-- Bytes the ori.c variant writes to the live temp file (one raw chunk
per successfully accumulated half-buffer). -/
def ori_chunk_stream : List (ℕ → ℕ) → (ℕ → Bool) → ℕ → List ℕ
  | [], _, _ => []
  | b :: rest, ok, i =>
    if ok i then ori_chunk b ++ ori_chunk_stream rest ok (i + 1) else []

def ori_trigger_cycle (live_ok fopen_ok : Bool) (t : Timestamp) (batch : List (List ℕ))
    (bs : List (ℕ → ℕ)) (ok : ℕ → Bool) :
    List (List ℕ) × Option (List ℕ) × Option (List ℕ) × Option ℕ :=
  if live_ok then
    let acq := ori_drain bs ok 0 []
    let r := event_append fopen_ok t batch acq
    (r.1, some (ori_chunk_stream bs ok 0), r.2.1, r.2.2)
  else (batch, none, none, none)

/-! ## Live-snapshot publication as a file-system operation trace
(src/cadgetdata.c lines 202-270)

The visible path `live\live_acquisition_ui.bin` is touched by exactly one
operation: `MoveFileExA(tmp, final, MOVEFILE_REPLACE_EXISTING |
MOVEFILE_WRITE_THROUGH)`, modelled as an atomic replacement of the
visible content by the temp file's content.  The temp-file `fwrite`s and
the `fclose` never touch the visible path. -/

inductive LiveOp where
  | writeTmp (chunk : List ℕ)
  | closeTmp
  | publish

/-- The operations one event performs on the live files, in program
order: when the temp `fopen` succeeded, one `fwrite` per drained chunk,
then `fclose`, then the rename (lines 252-253 and 266-270); when it
failed, nothing at all. -/
def live_trace (live_ok : Bool) (chunks : List (List ℕ)) : List LiveOp :=
  if live_ok then (chunks.map LiveOp.writeTmp) ++ [LiveOp.closeTmp, LiveOp.publish]
  else []

/-- File-system state: accumulated temp-file content, and the visible
path's content (`none` = does not exist). -/
def run_live : List LiveOp → List ℕ × Option (List ℕ) → List ℕ × Option (List ℕ)
  | [], s => s
  | LiveOp.writeTmp c :: rest, (tmp, vis) => run_live rest (tmp ++ c, vis)
  | LiveOp.closeTmp :: rest, s => run_live rest s
  | LiveOp.publish :: rest, (tmp, _) => run_live rest (tmp, some tmp)

/-! ## Spectral pre-processing stage
(src/CodeTriggerExtBaru/fft_zero.c lines 103-159)

`process_fft_and_save_onefile` accumulates each channel's `FFT_SIZE`
samples into a double sum, subtracts the mean from every sample of that
channel in place, runs `kiss_fft` per channel on zero-imaginary input,
and takes `sqrtf(r*r + i*i)` per bin.  Arithmetic is modelled exactly:
over `ℚ` for the accumulation/centering (for the inputs of interest —
sums of at most 2^13 values each below 2^16, divided by the power of two
2^13 — the C double/float computation is itself exact). -/

def FFT_SIZE : ℕ := 8192

/-- Per-channel arithmetic mean (fft_zero.c lines 105-111). -/
def channel_mean (ch : Fin FFT_SIZE → ℚ) : ℚ :=
  (∑ i, ch i) / (FFT_SIZE : ℚ)

/-- In-place zero-centering (fft_zero.c lines 112-115). -/
def zero_center (ch : Fin FFT_SIZE → ℚ) : Fin FFT_SIZE → ℚ :=
  fun i => ch i - channel_mean ch

/-- Modelled from the spec: the discrete Fourier transform applied by the
external `kiss_fft` library, whose source is not part of this repository
(spec §1 treats it as a black-box transform, N real samples → N complex
frequency-domain bins; `kiss_fft` on zero-imaginary input computes the
standard DFT). -/
noncomputable def dft (x : Fin FFT_SIZE → ℝ) (k : Fin FFT_SIZE) : ℂ :=
  ∑ j, (x j : ℂ) *
    Complex.exp (-2 * Real.pi * Complex.I * (j : ℕ) * (k : ℕ) / (FFT_SIZE : ℕ))

/-- Per-bin magnitude `sqrtf(out[i].r*out[i].r + out[i].i*out[i].i)`
(fft_zero.c lines 130-131). -/
noncomputable def fft_magnitude (x : Fin FFT_SIZE → ℝ) (k : Fin FFT_SIZE) : ℝ :=
  Real.sqrt ((dft x k).re ^ 2 + (dft x k).im ^ 2)

/-! ## Log-file reader (the parsing side of the round-trip property)

The header is newline-terminated `key:value` lines; a reader splits on
newlines, finds the `BATCH_EVENT_COUNT:` line, and reads its decimal
value.  The payload bytes after the header are re-segmented by each
event's externally known size. -/

/-- Split a character stream at newline characters. -/
def splitNl : List Char → List (List Char)
  | [] => [[]]
  | c :: rest =>
    if c = '\n' then [] :: splitNl rest
    else
      match splitNl rest with
      | [] => [[c]]
      | l :: ls => (c :: l) :: ls

/-- Read a decimal digit string (most significant first). -/
def parseNatDigits (s : List Char) : ℕ :=
  s.foldl (fun acc c => acc * 10 + (c.toNat - 48)) 0

/-- Recover the declared event count from a header: find the line
starting with `BATCH_EVENT_COUNT:` and read the decimal value after the
key. -/
def parseBatchEventCount (s : List Char) : Option ℕ :=
  match (splitNl s).find? (fun l => countKey.isPrefixOf l) with
  | some l => some (parseNatDigits (l.drop countKey.length))
  | none => none

/-- Re-segment a byte stream into consecutive chunks of the given
sizes. -/
def splitBySizes : List ℕ → List ℕ → List (List ℕ)
  | [], _ => []
  | s :: rest, bytes => bytes.take s :: splitBySizes rest (bytes.drop s)

/-! ## Lemmas about the Channel Selector -/

theorem extract_succ (hw s : ℕ) (sel : List ℕ) (src : ℕ → ℕ) :
    extract_selected_channels hw (s + 1) sel src =
      extract_selected_channels hw s sel src ++
        sel.map (fun ch => src (s * hw + ch)) := by
  simp [extract_selected_channels, List.range_succ]

theorem extract_length (hw scans : ℕ) (sel : List ℕ) (src : ℕ → ℕ) :
    (extract_selected_channels hw scans sel src).length = scans * sel.length := by
  induction scans with
  | zero => simp [extract_selected_channels]
  | succ s ih => rw [extract_succ]; simp [ih, Nat.succ_mul]

theorem extract_getD (hw : ℕ) (sel : List ℕ) (src : ℕ → ℕ) :
    ∀ (scans i k : ℕ), i < scans → k < sel.length →
      (extract_selected_channels hw scans sel src).getD (i * sel.length + k) 0 =
        src (i * hw + sel.getD k 0) := by
  intro scans
  induction scans with
  | zero => omega
  | succ s ih =>
    intro i k hi hk
    rw [extract_succ]
    rcases Nat.lt_succ_iff_lt_or_eq.mp hi with h | rfl
    · rw [List.getD_append]
      · exact ih i k h hk
      · rw [extract_length]
        calc i * sel.length + k < (i + 1) * sel.length := by
              rw [Nat.succ_mul]; omega
          _ ≤ s * sel.length := Nat.mul_le_mul_right _ h
    · rw [List.getD_append_right]
      · rw [extract_length, Nat.add_sub_cancel_left,
          List.getD_eq_getElem _ _ (by simpa using hk), List.getElem_map,
          List.getD_eq_getElem _ _ hk]
      · rw [extract_length]; omega

/-! ## Lemmas about the drain loop -/

theorem drain_acq_all_ok (ok : ℕ → Bool) (h : ∀ i, ok i = true) :
    ∀ (bs : List (ℕ → ℕ)) (i : ℕ) (acc : List ℕ),
      drain_acq bs ok i acc = some (acc ++ (bs.map extract_full).flatten) := by
  intro bs
  induction bs with
  | nil => simp [drain_acq]
  | cons b rest ih => intro i acc; simp [drain_acq, h i, ih]

theorem drain_acq_first_failure (ok : ℕ → Bool) :
    ∀ (bs : List (ℕ → ℕ)) (i : ℕ) (acc : List ℕ) (j : ℕ), j < bs.length →
      ok (i + j) = false → (∀ m, m < j → ok (i + m) = true) →
      drain_acq bs ok i acc = none := by
  intro bs
  induction bs with
  | nil => intro i acc j hj; exact absurd hj (by simp)
  | cons b rest ih =>
    intro i acc j hj hfail hok
    match j with
    | 0 =>
      have h0 : ok i = false := by simpa using hfail
      simp [drain_acq, h0]
    | j' + 1 =>
      have h0 : ok i = true := by simpa using hok 0 (Nat.succ_pos j')
      rw [drain_acq, if_pos h0]
      exact ih (i + 1) _ j' (by simpa using hj)
        (by rw [show i + 1 + j' = i + (j' + 1) by omega]; exact hfail)
        (fun m hm => by
          rw [show i + 1 + m = i + (m + 1) by omega]
          exact hok (m + 1) (by omega))
/-! ## Lemmas about batch append and flush -/

theorem event_append_fail_batch (t : Timestamp) (batch : List (List ℕ))
    (e : List ℕ) (he : e ≠ []) :
    (event_append false t batch (some e)).1 = batch ++ [e] := by
  simp only [event_append, he, if_false]
  split_ifs with h
  · simp [save_batch_to_file]
  · rfl

theorem event_append_fail_idx (t : Timestamp) (batch : List (List ℕ))
    (e : List ℕ) (he : e ≠ []) :
    (event_append false t batch (some e)).2.2 = some batch.length := by
  simp only [event_append, he, if_false]
  split_ifs with h
  · rfl
  · rfl

theorem event_append_small_batch (fopen_ok : Bool) (t : Timestamp)
    (batch : List (List ℕ)) (e : List ℕ) (he : e ≠ [])
    (h : batch.length + 1 < MAX_EVENT_BATCH) :
    (event_append fopen_ok t batch (some e)).1 = batch ++ [e] := by
  simp only [event_append, he, if_false]
  split_ifs with hc
  · simp at hc; omega
  · rfl

theorem event_append_ok_lt (t : Timestamp) (batch : List (List ℕ))
    (a : Option (List ℕ)) (h : batch.length < MAX_EVENT_BATCH) :
    (event_append true t batch a).1.length < MAX_EVENT_BATCH := by
  match a with
  | none => simpa [event_append] using h
  | some e =>
    by_cases he : e = []
    · simpa [event_append, he] using h
    · simp only [event_append, he, if_false]
      split_ifs with hc
      · simp [save_batch_to_file, MAX_EVENT_BATCH]
      · simp at hc ⊢; omega

theorem run_events_fail_length (t : Timestamp) :
    ∀ (n : ℕ) (batch : List (List ℕ)),
      (run_events false t batch (List.replicate n (some [0]))).length =
        batch.length + n := by
  intro n
  induction n with
  | zero => simp [run_events]
  | succ m ih =>
    intro batch
    rw [List.replicate_succ, run_events,
      event_append_fail_batch t batch [0] (by simp), ih]
    simp; omega

theorem run_length_trace_ok_le (t : Timestamp) :
    ∀ (evs : List (Option (List ℕ))) (batch : List (List ℕ)),
      batch.length < MAX_EVENT_BATCH →
      ∀ l ∈ run_length_trace true t batch evs, l ≤ MAX_EVENT_BATCH := by
  intro evs
  induction evs with
  | nil => intro batch _ l hl; simp [run_length_trace] at hl
  | cons a rest ih =>
    intro batch hb l hl
    rw [run_length_trace] at hl
    rcases List.mem_cons.mp hl with h | h
    · exact h ▸ Nat.le_of_lt (event_append_ok_lt t batch a hb)
    · exact ih _ (event_append_ok_lt t batch a hb) l h

theorem run_write_trace_fail (t : Timestamp) :
    ∀ (n : ℕ) (batch : List (List ℕ)),
      run_write_trace false t batch (List.replicate n (some [0])) =
        (List.range n).map (fun i => some (batch.length + i)) := by
  intro n
  induction n with
  | zero => simp [run_write_trace]
  | succ m ih =>
    intro batch
    rw [List.replicate_succ, run_write_trace,
      event_append_fail_batch t batch [0] (by simp),
      event_append_fail_idx t batch [0] (by simp), ih, List.range_succ_eq_map]
    simp only [List.map_map, List.map_cons, Function.comp, Nat.add_zero]
    congr 1
    refine List.map_congr_left fun i _ => ?_
    simp; omega

/-! ## Lemmas about decimal formatting and header parsing -/

theorem digit_toNat (k : ℕ) (h : k < 10) : (Char.ofNat (48 + k)).toNat = 48 + k := by
  interval_cases k <;> rfl

theorem natDigits_shape (n : ℕ) :
    ∀ c ∈ natDigits n, ∃ k, k < 10 ∧ c = Char.ofNat (48 + k) := by
  induction n using Nat.strong_induction_on with
  | _ n ih =>
    rw [natDigits]
    split_ifs with h
    · intro c hc
      rw [List.mem_singleton] at hc
      exact ⟨n, h, hc⟩
    · intro c hc
      rcases List.mem_append.mp hc with h1 | h1
      · exact ih (n / 10) (Nat.div_lt_self (by omega) (by omega)) c h1
      · rw [List.mem_singleton] at h1
        exact ⟨n % 10, Nat.mod_lt _ (by omega), h1⟩

theorem nl_not_mem_natDigits (n : ℕ) : '\n' ∉ natDigits n := by
  intro hmem
  obtain ⟨k, hk, hc⟩ := natDigits_shape n _ hmem
  have := digit_toNat k hk
  rw [← hc] at this
  simp at this
  omega

theorem nl_not_mem_padNum (w n : ℕ) : '\n' ∉ padNum w n := by
  intro hmem
  rcases List.mem_append.mp hmem with h | h
  · simp at h
  · exact nl_not_mem_natDigits n h

theorem nl_not_mem_date_line (t : Timestamp) : '\n' ∉ date_line t := by
  intro hmem
  rw [date_line] at hmem
  repeat' rcases List.mem_append.mp hmem with hmem | hmem
  all_goals first
    | exact absurd hmem (by decide)
    | exact nl_not_mem_natDigits _ hmem
    | exact nl_not_mem_padNum _ _ hmem
    | simp at hmem

theorem parse_foldl_natDigits (n : ℕ) : ∀ acc : ℕ,
    (natDigits n).foldl (fun acc c => acc * 10 + (c.toNat - 48)) acc =
      acc * 10 ^ (natDigits n).length + n := by
  induction n using Nat.strong_induction_on with
  | _ n ih =>
    intro acc
    rw [natDigits]
    split_ifs with h
    · simp [List.foldl, digit_toNat n h]
    · rw [List.foldl_append, ih (n / 10) (Nat.div_lt_self (by omega) (by omega)),
        List.length_append]
      simp [digit_toNat (n % 10) (Nat.mod_lt _ (by omega))]
      rw [pow_succ]
      have := Nat.div_add_mod n 10
      ring_nf
      omega

theorem parseNatDigits_natDigits (n : ℕ) : parseNatDigits (natDigits n) = n := by
  rw [parseNatDigits, parse_foldl_natDigits n 0]
  simp

theorem splitNl_ne_nil (s : List Char) : splitNl s ≠ [] := by
  match s with
  | [] => simp [splitNl]
  | c :: rest =>
    rw [splitNl]
    split_ifs with h
    · simp
    · match hm : splitNl rest with
      | [] => simp
      | l :: ls => simp

theorem splitNl_append (l : List Char) (r : List Char) (h : '\n' ∉ l) :
    splitNl (l ++ '\n' :: r) = l :: splitNl r := by
  induction l with
  | nil => simp [splitNl]
  | cons c cs ih =>
    have hc : ¬ c = '\n' := fun hc => h (by simp [hc])
    rw [List.cons_append, splitNl, if_neg hc,
      ih (fun hm => h (List.mem_cons_of_mem c hm))]

theorem isPrefixOf_false_head (a b : Char) (as bs : List Char) (h : a ≠ b) :
    (a :: as).isPrefixOf (b :: bs) = false := by
  simp [List.isPrefixOf, h]

theorem date_line_head (t : Timestamp) : ∃ r, date_line t = 'T' :: r :=
  ⟨_, rfl⟩

theorem nl_not_mem_countLine (n : ℕ) : '\n' ∉ countKey ++ natDigits n := by
  intro h
  rcases List.mem_append.mp h with h1 | h1
  · exact absurd h1 (by decide)
  · exact nl_not_mem_natDigits n h1

theorem splitNl_header (t : Timestamp) (n : ℕ) :
    splitNl (header_chars t n) =
      date_line t :: "CODE_VERSION:Code trigger V.3".toList ::
        "AUTHOR:Raihan Muhammad".toList :: (countKey ++ natDigits n) ::
          splitNl ("SAVED_CHANNELS:CH1,CH3".toList ++ '\n' ::
            ("INTERLEAVE_ORDER:CH1,CH3".toList ++ '\n' :: ['\n'])) := by
  rw [header_chars, splitNl_append _ _ (nl_not_mem_date_line t),
    splitNl_append _ _ (by decide), splitNl_append _ _ (by decide),
    splitNl_append _ _ (nl_not_mem_countLine n)]

theorem parse_header_count (t : Timestamp) (n : ℕ) :
    parseBatchEventCount (header_chars t n) = some n := by
  have h1 : countKey.isPrefixOf (date_line t) = false := by
    obtain ⟨r, hr⟩ := date_line_head t
    rw [hr, show countKey = 'B' :: "ATCH_EVENT_COUNT:".toList from rfl]
    exact isPrefixOf_false_head _ _ _ _ (by decide)
  have h2 : countKey.isPrefixOf ("CODE_VERSION:Code trigger V.3".toList) = false := by
    decide
  have h3 : countKey.isPrefixOf ("AUTHOR:Raihan Muhammad".toList) = false := by
    decide
  have h4 : countKey.isPrefixOf (countKey ++ natDigits n) = true := by
    rw [List.isPrefixOf_iff_prefix]
    exact List.prefix_append _ _
  rw [parseBatchEventCount, splitNl_header,
    List.find?_cons_of_neg _ (by simp only [h1]; exact Bool.false_ne_true),
    List.find?_cons_of_neg _ (by decide),
    List.find?_cons_of_neg _ (by decide),
    List.find?_cons_of_pos _ h4]
  show some (parseNatDigits ((countKey ++ natDigits n).drop countKey.length)) = some n
  rw [List.drop_left, parseNatDigits_natDigits]

theorem splitBySizes_flatten (ps : List (List ℕ)) :
    splitBySizes (ps.map List.length) ps.flatten = ps := by
  induction ps with
  | nil => simp [splitBySizes]
  | cons p rest ih =>
    rw [List.map_cons, List.flatten_cons, splitBySizes, List.take_left,
      List.drop_left, ih]

/-! ## Lemmas about the live-publication trace -/

theorem run_live_append (x : List LiveOp) :
    ∀ (y : List LiveOp) (s : List ℕ × Option (List ℕ)),
      run_live (x ++ y) s = run_live y (run_live x s) := by
  induction x with
  | nil => intro y s; rfl
  | cons op rest ih =>
    intro y s
    match op, s with
    | LiveOp.writeTmp c, (tmp, vis) => exact ih y (tmp ++ c, vis)
    | LiveOp.closeTmp, (tmp, vis) => exact ih y (tmp, vis)
    | LiveOp.publish, (tmp, vis) => exact ih y (tmp, some tmp)

theorem run_live_writes (cs : List (List ℕ)) :
    ∀ (tmp : List ℕ) (vis : Option (List ℕ)),
      run_live (cs.map LiveOp.writeTmp) (tmp, vis) = (tmp ++ cs.flatten, vis) := by
  induction cs with
  | nil => intro tmp vis; simp [run_live]
  | cons c rest ih => intro tmp vis; simp [run_live, ih]

theorem live_prefix_cases (cs : List (List ℕ)) (vis0 : Option (List ℕ)) (k : ℕ) :
    (run_live ((cs.map LiveOp.writeTmp ++ [LiveOp.closeTmp, LiveOp.publish]).take k)
        ([], vis0)).2 = vis0 ∨
    (run_live ((cs.map LiveOp.writeTmp ++ [LiveOp.closeTmp, LiveOp.publish]).take k)
        ([], vis0)).2 = some cs.flatten := by
  rcases le_or_lt k (cs.map LiveOp.writeTmp).length with hk | hk
  · left
    rw [List.take_append_of_le_length hk, ← List.map_take, run_live_writes]
  · have hlen : (cs.map LiveOp.writeTmp).length ≤ k := le_of_lt hk
    rw [List.take_append_eq_append_take, List.take_of_length_le hlen]
    rcases hmk : k - (cs.map LiveOp.writeTmp).length with _ | m
    · omega
    · rcases m with _ | m'
      · left
        rw [show List.take 1 [LiveOp.closeTmp, LiveOp.publish] = [LiveOp.closeTmp]
            from rfl, run_live_append, run_live_writes]
        rfl
      · right
        rw [List.take_of_length_le (by simp), run_live_append, run_live_writes]
        rfl

/-! ## Small facts about the ori.c chunks -/

theorem ori_chunk_length (b : ℕ → ℕ) : (ori_chunk b).length = BUFFER_SAMPLES * 2 := by
  simp [ori_chunk]

theorem ori_chunk_ne_nil (b : ℕ → ℕ) : ori_chunk b ≠ [] := by
  intro h
  have := congrArg List.length h
  rw [ori_chunk_length] at this
  simp [BUFFER_SAMPLES] at this

/-! ## Claim theorems -/

/-- C1: for every half-buffer of `scans` scans of `hw` interleaved 16-bit
samples and every selection list whose entries are all below `hw`, the
extraction produces exactly `scans × |sel|` samples; for each scan index
`i` in order and selection entry `k` in declared order the output slot
`i*|sel| + k` equals `src[i*hw + sel[k]]`; and for selection {1,3} over 4
channels with 2 scans of [10,20,30,40, 11,21,31,41] the output is
[20,40, 21,41]. -/
theorem extract_contract (hw scans : ℕ) (sel : List ℕ) (src : ℕ → ℕ)
    (_hsel : ∀ c ∈ sel, c < hw) :
    (extract_selected_channels hw scans sel src).length = scans * sel.length ∧
    (∀ i k, i < scans → k < sel.length →
      (extract_selected_channels hw scans sel src).getD (i * sel.length + k) 0 =
        src (i * hw + sel.getD k 0)) ∧
    extract_selected_channels 4 2 [1, 3]
      (fun n => [10, 20, 30, 40, 11, 21, 31, 41].getD n 0) = [20, 40, 21, 41] :=
  ⟨extract_length hw scans sel src,
    fun i k hi hk => extract_getD hw sel src scans i k hi hk, by decide⟩

/-- C1 witness: the contract applied to the claim's own scenario. -/
theorem extract_contract_witness :
    (∀ c ∈ [1, 3], c < 4) ∧
    ((extract_selected_channels 4 2 [1, 3]
        (fun n => [10, 20, 30, 40, 11, 21, 31, 41].getD n 0)).length =
          2 * [1, 3].length ∧
      (∀ i k, i < 2 → k < [1, 3].length →
        (extract_selected_channels 4 2 [1, 3]
            (fun n => [10, 20, 30, 40, 11, 21, 31, 41].getD n 0)).getD
              (i * [1, 3].length + k) 0 =
          [10, 20, 30, 40, 11, 21, 31, 41].getD (i * 4 + [1, 3].getD k 0) 0) ∧
      extract_selected_channels 4 2 [1, 3]
        (fun n => [10, 20, 30, 40, 11, 21, 31, 41].getD n 0) = [20, 40, 21, 41]) :=
  ⟨by decide, extract_contract 4 2 [1, 3]
    (fun n => [10, 20, 30, 40, 11, 21, 31, 41].getD n 0) (by decide)⟩

/-- C2: with no allocation failure and no cancellation, the event buffer
at the end of the drain loop is the concatenation of the extractions of
the delivered half-buffers `B0, B1, B2, ...` in exact arrival order. -/
theorem drain_order_concat (bs : List (ℕ → ℕ)) (ok : ℕ → Bool)
    (h : ∀ i, ok i = true) :
    drain_acq bs ok 0 [] = some ((bs.map extract_full).flatten) := by
  simpa using drain_acq_all_ok ok h bs 0 []

/-- C2 witness. -/
theorem drain_order_concat_witness :
    (∀ i : ℕ, (fun _ : ℕ => true) i = true) ∧
    drain_acq [] (fun _ : ℕ => true) 0 [] =
      some ((([] : List (ℕ → ℕ)).map extract_full).flatten) :=
  ⟨fun _ => rfl, drain_order_concat [] (fun _ => true) (fun _ => rfl)⟩

/-- C3 counterexample: under flush attempts that all fail to open the log
file (a case the claim explicitly includes), 1001 completed events leave
the batch holding 1001 events — more than MAX_EVENT_BATCH — with no
intervening successful flush boundary. -/
theorem batch_capacity_counterexample :
    MAX_EVENT_BATCH <
      (run_events false ⟨2024, 1, 1, 0, 0, 0⟩ []
        (List.replicate 1001 (some [0]))).length := by
  rw [run_events_fail_length]
  norm_num [MAX_EVENT_BATCH]

/-- C3 amended: for every sequence of completed events (allocation-failure
events included, which are never added), as long as every invoked flush
succeeds in opening its output file, the batch never holds more than
MAX_EVENT_BATCH events between flush boundaries, because the flush runs
synchronously the instant the count reaches capacity. -/
theorem batch_capacity_flush_ok (t : Timestamp) (batch : List (List ℕ))
    (evs : List (Option (List ℕ))) (h : batch.length < MAX_EVENT_BATCH) :
    ∀ l ∈ run_length_trace true t batch evs, l ≤ MAX_EVENT_BATCH :=
  run_length_trace_ok_le t evs batch h

/-- C3 witness. -/
theorem batch_capacity_flush_ok_witness :
    (([] : List (List ℕ)).length < MAX_EVENT_BATCH) ∧
    (∀ l ∈ run_length_trace true ⟨2024, 1, 1, 0, 0, 0⟩ [] [some [0]],
      l ≤ MAX_EVENT_BATCH) :=
  ⟨by decide, batch_capacity_flush_ok ⟨2024, 1, 1, 0, 0, 0⟩ [] [some [0]] (by decide)⟩

/-- C4: when the log file cannot be opened, the flush is abandoned
atomically — the batch sequence and count are unchanged, nothing is
freed or written, the `KRITIS` diagnostic is emitted — and the process
continues acquiring: any later completed event is still appended. -/
theorem flush_open_failure_atomic (t : Timestamp) (batch : List (List ℕ))
    (h : batch ≠ []) :
    save_batch_to_file false t batch = (batch, none, true) ∧
    ∀ e : List ℕ, e ≠ [] →
      (event_append false t batch (some e)).1 = batch ++ [e] := by
  refine ⟨?_, fun e he => event_append_fail_batch t batch e he⟩
  simp [save_batch_to_file, List.length_eq_zero, h]

/-- C4 witness. -/
theorem flush_open_failure_atomic_witness :
    (([[1]] : List (List ℕ)) ≠ []) ∧
    (save_batch_to_file false ⟨2024, 1, 1, 0, 0, 0⟩ [[1]] = ([[1]], none, true) ∧
      ∀ e : List ℕ, e ≠ [] →
        (event_append false ⟨2024, 1, 1, 0, 0, 0⟩ [[1]] (some e)).1 = [[1]] ++ [e]) :=
  ⟨by decide, flush_open_failure_atomic ⟨2024, 1, 1, 0, 0, 0⟩ [[1]] (by decide)⟩

/-- C5: flushing a non-empty batch of N events writes one file consisting
of the text header followed by each event's raw payload in insertion
order with no separators; parsing the header recovers exactly N as the
declared event count; splitting the bytes after the header by each
event's known size recovers the original payloads byte-identically; and
afterwards all event buffers are freed and the count is reset to zero. -/
theorem save_batch_roundtrip (t : Timestamp) (evs : List (List ℕ))
    (h : evs ≠ []) :
    save_batch_to_file true t evs =
      ([], some ((header_chars t evs.length).map Char.toNat ++ evs.flatten),
        false) ∧
    parseBatchEventCount (header_chars t evs.length) = some evs.length ∧
    ((header_chars t evs.length).map Char.toNat ++ evs.flatten).drop
        ((header_chars t evs.length).map Char.toNat).length = evs.flatten ∧
    splitBySizes (evs.map List.length) evs.flatten = evs := by
  refine ⟨?_, parse_header_count t evs.length, List.drop_left _ _,
    splitBySizes_flatten evs⟩
  simp [save_batch_to_file, List.length_eq_zero, h]

/-- C5 witness. -/
theorem save_batch_roundtrip_witness :
    (([[7]] : List (List ℕ)) ≠ []) ∧
    (save_batch_to_file true ⟨2024, 1, 1, 0, 0, 0⟩ [[7]] =
      ([], some ((header_chars ⟨2024, 1, 1, 0, 0, 0⟩ [[7]].length).map Char.toNat ++
        ([[7]] : List (List ℕ)).flatten), false) ∧
    parseBatchEventCount (header_chars ⟨2024, 1, 1, 0, 0, 0⟩ [[7]].length) =
      some ([[7]] : List (List ℕ)).length ∧
    ((header_chars ⟨2024, 1, 1, 0, 0, 0⟩ [[7]].length).map Char.toNat ++
        ([[7]] : List (List ℕ)).flatten).drop
        ((header_chars ⟨2024, 1, 1, 0, 0, 0⟩ [[7]].length).map Char.toNat).length =
      ([[7]] : List (List ℕ)).flatten ∧
    splitBySizes (([[7]] : List (List ℕ)).map List.length)
      ([[7]] : List (List ℕ)).flatten = [[7]]) :=
  ⟨by decide, save_batch_roundtrip ⟨2024, 1, 1, 0, 0, 0⟩ [[7]] (by decide)⟩

/-- C6: when growing the event buffer fails on some chunk, the partial
data is freed and the event discarded entirely (`none`), the batch is
unchanged by that trigger cycle, and acquisition proceeds: a following
trigger cycle whose drain succeeds with non-empty data still appends its
event to the batch. -/
theorem alloc_failure_discards_event (bs : List (ℕ → ℕ)) (ok : ℕ → Bool)
    (j : ℕ) (hj : j < bs.length) (hfail : ok j = false)
    (hok : ∀ m, m < j → ok m = true) (live_ok fopen_ok : Bool) (t : Timestamp)
    (batch : List (List ℕ)) :
    drain_acq bs ok 0 [] = none ∧
    (trigger_cycle live_ok fopen_ok t batch bs ok).1 = batch ∧
    (∀ (bs' : List (ℕ → ℕ)) (ok' : ℕ → Bool) (e : List ℕ),
      drain_acq bs' ok' 0 [] = some e → e ≠ [] →
      batch.length + 1 < MAX_EVENT_BATCH →
      (trigger_cycle live_ok fopen_ok t
        (trigger_cycle live_ok fopen_ok t batch bs ok).1 bs' ok').1 =
        batch ++ [e]) := by
  have hnone : drain_acq bs ok 0 [] = none :=
    drain_acq_first_failure ok bs 0 [] j hj (by simpa using hfail)
      (fun m hm => by simpa using hok m hm)
  have hbatch : (trigger_cycle live_ok fopen_ok t batch bs ok).1 = batch := by
    simp [trigger_cycle, hnone, event_append]
  refine ⟨hnone, hbatch, fun bs' ok' e he hne hlen => ?_⟩
  rw [hbatch, trigger_cycle]
  simp only [he]
  exact event_append_small_batch fopen_ok t batch e hne hlen

/-- C6 witness: failure on the very first chunk of a one-half-buffer
event; the next cycle's successful one-chunk event is still batched. -/
theorem alloc_failure_discards_event_witness :
    (0 < ([fun _ => 0] : List (ℕ → ℕ)).length ∧ (fun _ : ℕ => false) 0 = false ∧
      (∀ m, m < 0 → (fun _ : ℕ => false) m = true)) ∧
    (drain_acq [fun _ => 0] (fun _ => false) 0 [] = none ∧
      (trigger_cycle true true ⟨2024, 1, 1, 0, 0, 0⟩ []
        [fun _ => 0] (fun _ => false)).1 = [] ∧
      (∀ (bs' : List (ℕ → ℕ)) (ok' : ℕ → Bool) (e : List ℕ),
        drain_acq bs' ok' 0 [] = some e → e ≠ [] →
        ([] : List (List ℕ)).length + 1 < MAX_EVENT_BATCH →
        (trigger_cycle true true ⟨2024, 1, 1, 0, 0, 0⟩
          (trigger_cycle true true ⟨2024, 1, 1, 0, 0, 0⟩ []
            [fun _ => 0] (fun _ => false)).1 bs' ok').1 = [] ++ [e])) :=
  ⟨⟨by simp, rfl, fun m hm => absurd hm (Nat.not_lt_zero m)⟩,
    alloc_failure_discards_event [fun _ => 0] (fun _ => false) 0 (by simp) rfl
      (fun m hm => absurd hm (Nat.not_lt_zero m)) true true ⟨2024, 1, 1, 0, 0, 0⟩ []⟩

/-- C7 counterexample: in the `ori.c` variant (cited by the claim, same
branch in `fft_zero.c`), a live temp-file open failure executes
`continue`: with one ready half-buffer — whose drain would have produced
a non-empty event — the trigger cycle returns with the batch unchanged
and nothing accumulated, contradicting "the event's samples are still
accumulated and, if non-empty, still added to the batch". -/
theorem live_skip_counterexample :
    ori_trigger_cycle false true ⟨2024, 1, 1, 0, 0, 0⟩ [] [fun _ => 5]
        (fun _ => true) = ([], none, none, none) ∧
    ori_drain [fun _ => 5] (fun _ => true) 0 [] = some (ori_chunk (fun _ => 5)) ∧
    ori_chunk (fun _ => 5) ≠ [] := by
  refine ⟨by simp [ori_trigger_cycle], ?_, ori_chunk_ne_nil _⟩
  simp [ori_drain]

/-- C7 amended: in `src/cadgetdata.c`, a live temp-file open failure skips
only the publication — the drain loop still runs, the batch and log
behaviour is identical to the success case, and no snapshot is published;
in the `ori.c`/`fft_zero.c` variants the same failure skips the entire
trigger cycle (no drain, no accumulation, no batch append) and
acquisition continues with the next trigger. -/
theorem live_failure_publication_only (fopen_ok : Bool) (t : Timestamp)
    (batch : List (List ℕ)) (bs : List (ℕ → ℕ)) (ok : ℕ → Bool) :
    (trigger_cycle false fopen_ok t batch bs ok).1 =
      (trigger_cycle true fopen_ok t batch bs ok).1 ∧
    (trigger_cycle false fopen_ok t batch bs ok).2.1 = none ∧
    (trigger_cycle false fopen_ok t batch bs ok).2.2 =
      (trigger_cycle true fopen_ok t batch bs ok).2.2 ∧
    ori_trigger_cycle false fopen_ok t batch bs ok = (batch, none, none, none) :=
  ⟨rfl, rfl, rfl, rfl⟩

/-- C8: the visible live-snapshot path, observed after any prefix of the
operations one event performs, either still holds its previous content
(or does not exist) or holds the one complete new snapshot — never a
partial one; after the full trace it holds the complete snapshot; and on
temp-open failure no operation touches the files at all.  Content is
written in full to the temp file, the temp file is closed, and only then
does the single atomic rename (`MoveFileExA` with
`MOVEFILE_REPLACE_EXISTING`) replace the visible path. -/
theorem live_snapshot_atomic (chunks : List (List ℕ)) (vis0 : Option (List ℕ))
    (k : ℕ) :
    ((run_live ((live_trace true chunks).take k) ([], vis0)).2 = vis0 ∨
      (run_live ((live_trace true chunks).take k) ([], vis0)).2 =
        some chunks.flatten) ∧
    (run_live (live_trace true chunks) ([], vis0)).2 = some chunks.flatten ∧
    run_live ((live_trace false chunks).take k) ([], vis0) = ([], vis0) := by
  refine ⟨?_, ?_, by simp [live_trace, run_live]⟩
  · simpa [live_trace] using live_prefix_cases chunks vis0 k
  · rw [show live_trace true chunks =
        chunks.map LiveOp.writeTmp ++ [LiveOp.closeTmp, LiveOp.publish]
        from by simp [live_trace], run_live_append, run_live_writes]
    rfl

/-- C9: the spectral stage computes each channel's mean by accumulation
over its N samples and subtracts it in place from every sample;
consequently, for a constant input of N identical samples, after
zero-centering every sample is 0 and every one of the N magnitude bins
for that channel is 0. -/
theorem spectral_constant_zero (c : ℚ) :
    (∀ i, zero_center (fun _ => c) i = 0) ∧
    (∀ k, fft_magnitude (fun j => ((zero_center (fun _ => c) j : ℚ) : ℝ)) k = 0) := by
  have hm : channel_mean (fun _ => c) = c := by
    rw [channel_mean]
    simp only [Finset.sum_const, Finset.card_univ, Fintype.card_fin, nsmul_eq_mul]
    exact mul_div_cancel_left₀ c (by norm_num [FFT_SIZE])
  have hz : ∀ i, zero_center (fun _ => c) i = 0 := fun i => by
    simp [zero_center, hm]
  refine ⟨hz, fun k => ?_⟩
  have hx : (fun j => ((zero_center (fun _ => c) j : ℚ) : ℝ)) = fun _ => (0 : ℝ) := by
    funext j; rw [hz j]; norm_num
  rw [hx, fft_magnitude]
  have hdft : dft (fun _ => (0 : ℝ)) k = 0 := by simp [dft]
  rw [hdft]
  simp

/-- C10: evaluating the code at the failing run — 1001 completed events
while every flush attempt fails to open its log file — shows a
`g_data_buffer[g_buffered_count]` write performed with index
`MAX_EVENT_BATCH` (= 1000), one past the last valid index of the
1000-element array: the claimed safety invariant does not hold on the
code. -/
theorem batch_write_overflow :
    some MAX_EVENT_BATCH ∈
      run_write_trace false ⟨2024, 1, 1, 0, 0, 0⟩ []
        (List.replicate 1001 (some [0])) := by
  rw [run_write_trace_fail]
  simp only [List.mem_map, List.mem_range]
  exact ⟨1000, by norm_num, by simp [MAX_EVENT_BATCH]⟩
